import Mathlib

/-!
Verification of the MemU memory-item lifecycle engine.

This file gives a shallow embedding, in Lean 4, of the core pure logic of
the MemU memory system (memu/memory): the memory-item line codec, the
reconciling-update operation engine, relation-link writeback, the
theory-of-mind response parser, the cluster-response bullet parser, the
conversation-processing iteration loop, and the recall engine's top-k item
retrieval guard.  Python strings are modelled as lists of characters
(`Str`); Python dictionaries holding memory items are modelled as
structures; the mutable-reference semantics of the update engine's working
lists is modelled with an explicit append-only store of items addressed by
index.  Each claim about the system is then settled as a theorem about
these definitions.
-/

namespace MemU

/-- Python strings are modelled as lists of characters. -/
abbrev Str := List Char

/-- Whitespace test used by Python's str.strip / \s. -/
def isWs (c : Char) : Bool := c.isWhitespace

/-- Python str.strip(): remove leading and trailing whitespace. -/
def pyStrip (s : Str) : Str := ((s.dropWhile isWs).reverse.dropWhile isWs).reverse

/-- Python str.startswith on character lists. -/
def startsWithL : Str → Str → Bool
  | [], _ => true
  | _ :: _, [] => false
  | p :: ps, c :: cs => p == c && startsWithL ps cs

/-- Split a list at the first occurrence of character c; none if c is absent.
Models a regex group ([^c]*) followed by the literal c. -/
def splitFirst (c : Char) : Str → Option (Str × Str)
  | [] => none
  | x :: xs =>
    if x = c then some ([], xs)
    else
      match splitFirst c xs with
      | some (a, b) => some (x :: a, b)
      | none => none

/-- Python substring test (the `in` operator on strings). -/
def containsSub (pat : Str) : Str → Bool
  | [] => startsWithL pat []
  | l@(_ :: rest) => startsWithL pat l || containsSub pat rest

/-- Python str.split on a single character (always returns at least one piece). -/
def pySplitChar (c : Char) : Str → List Str
  | [] => [[]]
  | x :: xs =>
    let r := pySplitChar c xs
    if x = c then [] :: r
    else
      match r with
      | h :: t => (x :: h) :: t
      | [] => [[x]]

/-- Python sep.join(pieces). -/
def interList (sep : Str) : List Str → Str
  | [] => []
  | [l] => l
  | l :: ls => l ++ sep ++ interList sep (ls)

/-- Python str.upper on character lists (ASCII). -/
def upperL (s : Str) : Str := s.map Char.toUpper

/-- A memory item: the four fields carried by one line of a category file
(memu/memory data model). -/
structure MemoryItem where
  memory_id : Str
  mentioned_at : Str
  content : Str
  links : Str
deriving DecidableEq, Repr, Inhabited

/-- The literal bracket opening the timestamp field of an encoded line. -/
def mentionedLit : Str := "[mentioned at ".data

/-- Encoder for one memory item line, from
update_memory_with_suggestions._format_memory_items:
[memory_id][mentioned at date] content [links]. -/
def formatMemoryItemLine (i : MemoryItem) : Str :=
  "[".data ++ i.memory_id ++ "][mentioned at ".data ++ i.mentioned_at
    ++ "] ".data ++ i.content ++ " [".data ++ i.links ++ "]".data

/-- update_memory_with_suggestions._format_memory_items: newline-joined lines. -/
def formatMemoryItems (items : List MemoryItem) : Str :=
  interList "\n".data (items.map formatMemoryItemLine)

/-- The suffix of body after its last close bracket (all of body if none). -/
def afterLastClose (body : Str) : Str :=
  ((body.reverse).takeWhile (fun c => c ≠ ']')).reverse

/-- Semantics of the tail of the decoder regex
\s*(.*?)(?:\s*\[([^\]]*)\])?$  of base_action._extract_timestamped_memory_item:
the lazy content group together with the optional trailing links bracket.
The optional bracket matches at the earliest open bracket that is followed by
no close bracket before the final character; the content group is then
everything before it (stripped by the caller).  Returns (content, links). -/
def splitContentLinks (r : Str) : Str × Str :=
  if r.getLast? = some ']' then
    let body := r.dropLast
    let b2 := afterLastClose body
    let b1c := body.take (body.length - b2.length)
    match splitFirst '[' b2 with
    | some (c1, c2) => (pyStrip (b1c ++ c1), c2)
    | none => (pyStrip r, [])
  else (pyStrip r, [])

/-- Decoder from base_action._extract_timestamped_memory_item: pattern
^\[([^\]]+)\]\[mentioned at ([^\]]+)\]\s*(.*?)(?:\s*\[([^\]]*)\])?$
applied to the stripped line; returns four empty strings when the pattern
does not match (the Python code returns ("", "", "", "")). -/
def extractTimestampedMemoryItem (line : Str) : Str × Str × Str × Str :=
  match pyStrip line with
  | [] => ([], [], [], [])
  | c :: rest =>
    if c = '[' then
      match splitFirst ']' rest with
      | some (idC, rest1) =>
        if idC = [] then ([], [], [], [])
        else if startsWithL mentionedLit rest1 then
          match splitFirst ']' (rest1.drop mentionedLit.length) with
          | some (dC, rest3) =>
            if dC = [] then ([], [], [], [])
            else
              let cl := splitContentLinks rest3
              (idC, dC, cl.1, cl.2)
          | none => ([], [], [], [])
        else ([], [], [], [])
      | none => ([], [], [], [])
    else ([], [], [], [])

/-- A parsed line of a category file, from base_action._parse_memory_items
(keeps the stripped full line and the 1-based line number). -/
structure ParsedItem where
  memory_id : Str
  mentioned_at : Str
  content : Str
  links : Str
  full_line : Str
  line_number : Nat
deriving DecidableEq, Repr

/-- Line loop of base_action._parse_memory_items: non-empty stripped lines
whose timestamped decode has non-empty content become items; all other
lines are skipped.  n is the 0-based index of the current line. -/
def parseMemoryItemsLines : Nat → List Str → List ParsedItem
  | _, [] => []
  | n, l :: ls =>
    let line := pyStrip l
    if line = [] then parseMemoryItemsLines (n + 1) ls
    else
      let r := extractTimestampedMemoryItem line
      if r.2.2.1 = [] then parseMemoryItemsLines (n + 1) ls
      else ⟨r.1, r.2.1, r.2.2.1, r.2.2.2, line, n + 1⟩ :: parseMemoryItemsLines (n + 1) ls

/-- base_action._parse_memory_items: split content into lines and keep the
lines that decode in the timestamped format with non-empty content. -/
def parseMemoryItems (content : Str) : List ParsedItem :=
  if pyStrip content = [] then []
  else parseMemoryItemsLines 0 (pySplitChar '\n' content)

/-- update_memory_with_suggestions._extract_memory_items_from_content:
same per-line regex, keeping lines with non-empty id and content. -/
def extractMemoryItemsFromContent (content : Str) : List MemoryItem :=
  (pySplitChar '\n' content).filterMap fun l =>
    let r := extractTimestampedMemoryItem (pyStrip l)
    if r.1 ≠ [] ∧ r.2.2.1 ≠ [] then some ⟨r.1, r.2.1, r.2.2.1, r.2.2.2⟩ else none

/-- Python word character (\w of the legacy memory-id regexes). -/
def isWordChar (c : Char) : Bool := c.isAlphanum || c = '_'

/-- base_action._has_memory_id: regex ^\[[\w\d_]+\]\s+ on the stripped line
(the legacy two-field scheme [id] content). -/
def hasMemoryId (line : Str) : Bool :=
  match pyStrip line with
  | '[' :: rest =>
    let run := rest.takeWhile isWordChar
    match rest.drop run.length with
    | ']' :: (c :: _) => run ≠ [] && isWs c
    | _ => false
  | _ => false

/-- base_action._extract_memory_id: regex ^\[([\w\d_]+)\]\s*(.*) on the
stripped line; on failure returns the empty id with the whole stripped line. -/
def extractMemoryId (line : Str) : Str × Str :=
  match pyStrip line with
  | '[' :: rest =>
    let run := rest.takeWhile isWordChar
    match rest.drop run.length with
    | ']' :: t => if run = [] then ([], pyStrip line) else (run, t.dropWhile isWs)
    | _ => ([], pyStrip line)
  | _ => ([], pyStrip line)

/-- One typed operation parsed from the reconciling-update model response
(update_memory_with_suggestions._parse_operation_response): the operation
name and the optional target id / replacement content. -/
structure MemoryOp where
  operation : Str
  target_id : Option Str
  memory_content : Option Str
deriving DecidableEq, Repr

/-- Python truthiness of an optional string (None and "" are falsy). -/
def truthy : Option Str → Bool
  | none => false
  | some s => !s.isEmpty

/-- Placeholder value for out-of-range store reads (never reached in the
modelled executions). -/
def defaultItem : MemoryItem := ⟨[], [], [], []⟩

/-- Dereference an item index in the append-only store that models the heap
of Python dict objects shared between all_items / new_items / updated_items. -/
def getRef (store : List MemoryItem) (j : Nat) : MemoryItem := store.getD j defaultItem

/-- State threaded through update_memory_with_suggestions._execute_operations.
The store holds every item object ever created; the three index lists model
the Python lists of references into it. -/
structure ExecState where
  store : List MemoryItem
  allItems : List Nat
  newItems : List Nat
  updatedItems : List Nat
  opsExecuted : List MemoryOp
  nextFresh : Nat
deriving Repr

/-- Python list.remove(item): drop the first element whose referenced value
equals v (dict equality). -/
def eraseFirstByVal (store : List MemoryItem) (v : MemoryItem) : List Nat → List Nat
  | [] => []
  | j :: rest => if getRef store j = v then rest else j :: eraseFirstByVal store v rest

/-- The DELETE block of _execute_operations: a Python for-loop over all_items
that calls all_items.remove(item) on matches while iterating.  The iterator
index advances by one each step over the evolving list, so the element that
slides into a removed slot is skipped, exactly as in CPython. -/
def pyDeleteLoop (store : List MemoryItem) (tid : Str) : Nat → List Nat → Nat → List Nat
  | 0, l, _ => l
  | fuel + 1, l, i =>
    if h : i < l.length then
      let v := getRef store (l.get ⟨i, h⟩)
      let l' := if v.memory_id = tid then eraseFirstByVal store v l else l
      pyDeleteLoop store tid fuel l' (i + 1)
    else l

/-- The UPDATE block's search: first reference in all_items whose item has
the target memory id (the Python loop breaks at the first match). -/
def findUpdateIdx (store : List MemoryItem) (tid : Str) (l : List Nat) : Option Nat :=
  l.find? fun j => (getRef store j).memory_id == tid

/-- In-place content replacement of the UPDATE block. -/
def setContent (i : MemoryItem) (c : Str) : MemoryItem := { i with content := c }

/-- One step of update_memory_with_suggestions._execute_operations: apply a
single parsed operation to the working state.  ADD appends a fresh item
(skipped silently when the content is falsy); UPDATE rewrites the first item
matching the target id in place (skipped when target or content is falsy);
DELETE removes matching references with Python's remove-while-iterating
semantics; TOUCH only logs.  UPDATE/DELETE/TOUCH append to the executed list
whether or not the target exists. -/
def execOp (freshIds : Nat → Str) (sessionDate : Str) (st : ExecState) (op : MemoryOp) :
    ExecState :=
  if op.operation = "ADD".data then
    if truthy op.memory_content = false then st
    else
      let idx := st.store.length
      let item : MemoryItem := ⟨freshIds st.nextFresh, sessionDate, op.memory_content.getD [], []⟩
      { store := st.store ++ [item]
        allItems := st.allItems ++ [idx]
        newItems := st.newItems ++ [idx]
        updatedItems := st.updatedItems ++ [idx]
        opsExecuted := st.opsExecuted ++ [op]
        nextFresh := st.nextFresh + 1 }
  else if op.operation = "UPDATE".data then
    if truthy op.target_id = false ∨ truthy op.memory_content = false then st
    else
      match findUpdateIdx st.store (op.target_id.getD []) st.allItems with
      | some j =>
        { st with
          store := st.store.set j (setContent (getRef st.store j) (op.memory_content.getD []))
          updatedItems := st.updatedItems ++ [j]
          opsExecuted := st.opsExecuted ++ [op] }
      | none => { st with opsExecuted := st.opsExecuted ++ [op] }
  else if op.operation = "DELETE".data then
    if truthy op.target_id = false then st
    else
      { st with
        allItems := pyDeleteLoop st.store (op.target_id.getD []) st.allItems.length st.allItems 0
        opsExecuted := st.opsExecuted ++ [op] }
  else if op.operation = "TOUCH".data then
    if truthy op.target_id = false then st
    else { st with opsExecuted := st.opsExecuted ++ [op] }
  else st

/-- Initial working state: the freshly loaded existing items, all referenced
by all_items in order; nothing new, updated, or executed yet. -/
def initState (existing : List MemoryItem) : ExecState :=
  ⟨existing, List.range existing.length, [], [], [], 0⟩

/-- update_memory_with_suggestions._execute_operations: fold the operation
list over the working state. -/
def execOperations (freshIds : Nat → Str) (sessionDate : Str) (existing : List MemoryItem)
    (ops : List MemoryOp) : ExecState :=
  ops.foldl (execOp freshIds sessionDate) (initState existing)

/-- Read a reference list back into item values (what the Python lists of
dict references contain once all operations have run). -/
def materialize (st : ExecState) (refs : List Nat) : List MemoryItem :=
  refs.map (getRef st.store)

/-- The category content written back at the end of _execute_operations. -/
def finalContent (st : ExecState) : Str := formatMemoryItems (materialize st st.allItems)

/-- _add_memory_item_embedding over updated_items: one embedding is generated
per updated item whose stripped content is non-empty (the embedding loop
skips blank items). -/
def embeddedItems (st : ExecState) : List MemoryItem :=
  (materialize st st.updatedItems).filter fun it => !(pyStrip it.content).isEmpty

/-- The memory ids whose embeddings are regenerated by the update. -/
def embeddedMemoryIds (st : ExecState) : List Str := (embeddedItems st).map (·.memory_id)

/-- Fuel-indexed recursion for removeAll; the fuel is an upper bound on the
list length, which strictly decreases at every step. -/
def removeAllAux (pat : Str) : Nat → Str → Str
  | _, [] => []
  | 0, l => l
  | fuel + 1, c :: rest =>
    if pat ≠ [] ∧ startsWithL pat (c :: rest) = true then
      removeAllAux pat fuel ((c :: rest).drop pat.length)
    else c :: removeAllAux pat fuel rest

/-- Python str.replace(pat, "") — remove every (non-overlapping, leftmost)
occurrence of a non-empty pattern. -/
def removeAll (pat : Str) (l : Str) : Str := removeAllAux pat l.length l

/-- Parser state of _parse_operation_response: completed operations plus the
operation currently being filled in. -/
structure OpParseState where
  ops : List MemoryOp
  cur : Option MemoryOp

/-- Line header literals of the operation response format. -/
def opLit : Str := "**OPERATION:**".data

/-- Target line header of the operation response format. -/
def targetLit : Str := "- Target Memory ID:".data

/-- Content line header of the operation response format. -/
def contentLit : Str := "- Memory Item Content:".data

/-- The four operation names accepted by _parse_operation_response. -/
def validOps : List Str := ["ADD".data, "UPDATE".data, "DELETE".data, "TOUCH".data]

/-- One line of update_memory_with_suggestions._parse_operation_response.
A "- Target Memory ID:" or "- Memory Item Content:" line seen while
current_operation is still None subscripts None in the Python code and
raises TypeError; that exception is modelled as the none result. -/
def parseOpLine (st : OpParseState) (rawLine : Str) : Option OpParseState :=
  let line := pyStrip rawLine
  let st1 :=
    if startsWithL opLit line then
      let o := pyStrip (removeAll opLit line)
      if o ∈ validOps then
        { ops := st.ops ++ (match st.cur with | some c => [c] | none => [])
          cur := some ⟨o, none, none⟩ }
      else st
    else st
  let st2? :=
    if startsWithL targetLit line then
      match st1.cur with
      | none => none
      | some c =>
        some { st1 with cur := some { c with target_id := some (pyStrip (removeAll targetLit line)) } }
    else some st1
  match st2? with
  | none => none
  | some st2 =>
    if startsWithL contentLit line then
      match st2.cur with
      | none => none
      | some c =>
        some { st2 with cur := some { c with memory_content := some (pyStrip (removeAll contentLit line)) } }
    else some st2

/-- update_memory_with_suggestions._parse_operation_response: fold the lines
of the stripped response; none models an uncaught TypeError inside parsing. -/
def parseOperationResponse (response : Str) : Option (List MemoryOp) :=
  match (pySplitChar '\n' (pyStrip response)).foldlM parseOpLine ⟨[], none⟩ with
  | none => none
  | some st => some (st.ops ++ (match st.cur with | some c => [c] | none => []))

/-- Result shape of UpdateMemoryWithSuggestionsAction.execute. -/
structure UpdateResult where
  success : Bool
  error : Option Str
  operation_executed : List MemoryOp
  new_memory_items : List MemoryItem
deriving DecidableEq, Repr

/-- UpdateMemoryWithSuggestionsAction.execute after the model call: category
validation, empty-response failure, response parsing (a parse TypeError is
caught by _handle_error and becomes a failure result), operation execution,
and the success result carrying the executed-operation audit list and the
newly created items. -/
def updateMemoryWithSuggestions (categoryValid : Bool) (existingContent : Str)
    (sessionDate : Str) (freshIds : Nat → Str) (operationResponse : Str) : UpdateResult :=
  if !categoryValid then ⟨false, some "Invalid category".data, [], []⟩
  else
    let existingItems := extractMemoryItemsFromContent existingContent
    if pyStrip operationResponse = [] then
      ⟨false, some "LLM returned empty operation analysis".data, [], []⟩
    else
      match parseOperationResponse operationResponse with
      | none => ⟨false, some "TypeError".data, [], []⟩
      | some ops =>
        let st := execOperations freshIds sessionDate existingItems ops
        ⟨true, none, st.opsExecuted, materialize st st.newItems⟩

/-- link_related_memories._append_links_to_memory, content transformation:
re-parse the category content, rewrite the target item's line with the new
link ids, keep every other parsed item's stripped full line, and join.
Lines that do not parse in the timestamped format never enter
_parse_memory_items' output and so are absent from the rewritten file. -/
def appendLinksToMemoryContent (content : Str) (memoryId : Str)
    (relatedMemories : List Str) : Str :=
  interList "\n".data ((parseMemoryItems content).map fun it =>
    if it.memory_id = memoryId then
      "[".data ++ it.memory_id ++ "][mentioned at ".data ++ it.mentioned_at ++ "] ".data
        ++ it.content ++ " [".data ++ interList ",".data relatedMemories ++ "]".data
    else it.full_line)

/-- Specification-side description of the link writeback acting on a single
line: a line whose decoded id is the target is rewritten with the new link
ids; every other line is returned verbatim. -/
def rewriteTargetLine (memoryId : Str) (related : List Str) (l : Str) : Str :=
  let r := extractTimestampedMemoryItem l
  if r.1 = memoryId then
    "[".data ++ r.1 ++ "][mentioned at ".data ++ r.2.1 ++ "] ".data ++ r.2.2.1
      ++ " [".data ++ interList ",".data related ++ "]".data
  else l

/-- Parser state of run_theory_of_mind._parse_theory_of_mind_from_text. -/
structure TomParseState where
  reasoning : Str
  items : List MemoryItem
  rs : Bool
  inf : Bool
  n : Nat

/-- Header literal of the reasoning section. -/
def reasoningHdr : Str := "**REASONING PROCESS:".data

/-- Header literal of the inference section. -/
def inferenceHdr : Str := "**INFERENCE ITEMS:".data

/-- The markdown-emphasis line opener tested by the section logic. -/
def starsLit : Str := "**".data

/-- One line of _parse_theory_of_mind_from_text: section headers toggle the
flags and are consumed; in the reasoning section non-empty non-** lines are
accumulated; in the inference section every non-empty line becomes a fresh
memory item with the session date. -/
def tomLine (sessionDate : Str) (freshIds : Nat → Str) (st : TomParseState) (raw : Str) :
    TomParseState :=
  let line := pyStrip raw
  if startsWithL reasoningHdr (upperL line)
      || (startsWithL starsLit line && containsSub "REASONING PROCESS".data (upperL line)) then
    { st with rs := true, inf := false }
  else if startsWithL inferenceHdr (upperL line)
      || (startsWithL starsLit line && containsSub "INFERENCE ITEMS".data (upperL line)) then
    { st with rs := false, inf := true }
  else if st.rs && !line.isEmpty && !startsWithL starsLit line then
    { st with reasoning := if st.reasoning.isEmpty then line else st.reasoning ++ '\n' :: line }
  else if st.inf && !line.isEmpty then
    { st with items := st.items ++ [⟨freshIds st.n, sessionDate, line, []⟩], n := st.n + 1 }
  else st

/-- run_theory_of_mind._parse_theory_of_mind_from_text: returns the reasoning
text and the inference items extracted from the response. -/
def parseTheoryOfMindFromText (responseText sessionDate : Str) (freshIds : Nat → Str) :
    Str × List MemoryItem :=
  let fin := (pySplitChar '\n' responseText).foldl (tomLine sessionDate freshIds)
    ⟨[], [], false, false, 0⟩
  (fin.reasoning, fin.items)

/-- Result shape of RunTheoryOfMindAction.execute. -/
structure TheoryOfMindResult where
  success : Bool
  error : Option Str
  theory_of_mind_items : List MemoryItem
  reasoning_process : Str
deriving DecidableEq, Repr

/-- RunTheoryOfMindAction.execute with the model response as input: input
validation, empty-response failure, response parsing, and the zero-items
check, which returns a failure result whenever no inference items were
extracted — even when the response parsed and its inference section was
legitimately left empty. -/
def runTheoryOfMind (conversationText : Str) (activityItems : List (Str × Str))
    (sessionDate : Str) (freshIds : Nat → Str) (response : Str) : TheoryOfMindResult :=
  if pyStrip conversationText = [] then
    ⟨false, some "Empty conversation text provided".data, [], []⟩
  else if activityItems = [] then
    ⟨false, some "No memory items provided".data, [], []⟩
  else if pyStrip response = [] then
    ⟨false, some "LLM returned empty response".data, [], []⟩
  else
    let pr := parseTheoryOfMindFromText (pyStrip response) sessionDate freshIds
    if pr.2 = [] then
      ⟨false, some "No theory of mind items could be extracted from conversation".data, [], []⟩
    else ⟨true, none, pr.2, pr.1⟩

/-- Python str.split(sep, 1) for a non-empty separator string: split at the
first occurrence; none when the separator does not occur (in which case the
Python two-variable unpacking of the one-element result raises ValueError). -/
def splitOnceSub (sep : Str) : Str → Option (Str × Str)
  | [] => none
  | c :: rest =>
    if startsWithL sep (c :: rest) && !sep.isEmpty then some ([], (c :: rest).drop sep.length)
    else
      match splitOnceSub sep rest with
      | some (a, b) => some (c :: a, b)
      | none => none

/-- One line of the shared response parse of
cluster_memories._merge_existing_clusters (lines 170-174) and
cluster_memories._detect_new_clusters (lines 263-267): a line not starting
with "- " is skipped; a line starting with "- " is split at the first ": ",
and the two-variable unpacking raises ValueError (modelled as the error
result) when the line contains no ": ". -/
def clusterBulletStep (acc : List (Str × Str)) (line : Str) : Except Str (List (Str × Str)) :=
  if !startsWithL "- ".data line then Except.ok acc
  else
    match splitOnceSub ": ".data (line.drop 2) with
    | none => Except.error "ValueError: not enough values to unpack".data
    | some (k, v) => Except.ok (acc ++ [(k, v)])

/-- The shared response-line parse loop of both cluster sub-steps, over a
list of lines. -/
def clusterBulletLinesL (lines : List Str) : Except Str (List (Str × Str)) :=
  lines.foldlM clusterBulletStep []

/-- The shared response parse of both cluster sub-steps, over the raw
response text (for line in response.split("\n")). -/
def clusterBulletLines (response : Str) : Except Str (List (Str × Str)) :=
  clusterBulletLinesL (pySplitChar '\n' response)

/-- One tool call requested by the model in the orchestrator loop. -/
structure ToolCall where
  name : Str
  arguments : Str
deriving DecidableEq, Repr

/-- A chat-completion response observed by MemoryAgent.run. -/
structure ChatResponse where
  success : Bool
  content : Option Str
  tool_calls : List ToolCall

/-- The completion sentinel of the orchestrator loop. -/
def sentinelLit : Str := "PROCESSING_COMPLETE".data

/-- The loop's completion test: response.content and "PROCESSING_COMPLETE" in
response.content (an empty or missing content is falsy and never completes). -/
def responseComplete (r : ChatResponse) : Bool :=
  match r.content with
  | some c => !c.isEmpty && containsSub sentinelLit c
  | none => false

/-- Iteration structure of MemoryAgent.run (memory_agent.py lines 244-352):
for iteration in range(max_iterations), set results.iterations to
iteration+1, break on a failed model call or on the completion sentinel,
otherwise execute the requested tool calls (which never affect loop control)
and continue.  responses gives the model response of each iteration;
stopFlag gives the value of memory_core._stop_flag before each iteration —
the loop body never consults it, exactly as in the source, which contains
no stop-flag check.  Returns the final results.iterations value. -/
def runIterCount (responses : Nat → ChatResponse) (stopFlag : Nat → Bool) :
    Nat → Nat → Nat
  | 0, i => i
  | fuel + 1, i =>
    let resp := responses i
    if !resp.success then i + 1
    else if responseComplete resp then i + 1
    else runIterCount responses stopFlag fuel (i + 1)

/-- MemoryAgent.run's iteration count: the loop starting at iteration 0 with
fuel max_iterations. -/
def memoryAgentRunIterations (responses : Nat → ChatResponse) (stopFlag : Nat → Bool)
    (maxIterations : Nat) : Nat :=
  runIterCount responses stopFlag maxIterations 0

/-- One stored embedding record of a category sidecar file (the fields read
by RecallAgent.retrieve_relevant_memories). -/
structure EmbRecord where
  text : Str
  embedding : List ℚ
  item_id : Str
  memory_id : Str
  line_number : Nat

/-- One candidate produced by the retrieval scan. -/
structure RecallMemory where
  content : Str
  semantic_score : ℚ
  category : Str
  item_id : Str
  memory_id : Str
  line_number : Nat

/-- Stable descending insertion used to model Python list.sort(key=score,
reverse=True). -/
def insertByScore (x : RecallMemory) : List RecallMemory → List RecallMemory
  | [] => [x]
  | y :: ys =>
    if y.semantic_score ≤ x.semantic_score then x :: y :: ys else y :: insertByScore x ys

/-- Sort candidates by semantic score, descending. -/
def sortByScoreDesc (l : List RecallMemory) : List RecallMemory :=
  l.foldr insertByScore []

/-- Result shape of the recall methods. -/
structure RecallResult where
  success : Bool
  error : Option Str
  method : Str
  query : Str
  results : List RecallMemory
  total_items : Nat
  total_candidates : Nat

/-- RecallAgent.retrieve_relevant_memories.  The embedding capability and the
floating-point cosine similarity (_cosine_similarity, which uses math.sqrt)
are black-box collaborators and appear as the embed and cosSim parameters;
embeddingFiles lists each category's sidecar records.  When semantic search
is disabled the method returns the structured failure immediately, before
touching any of them; there is no keyword fallback in this method. -/
def retrieveRelevantMemories (semanticSearchEnabled : Bool)
    (cosSim : List ℚ → List ℚ → ℚ) (embed : Str → List ℚ) (embeddingsDirExists : Bool)
    (embeddingFiles : List (Str × List EmbRecord)) (query : Str) (topK : Nat) : RecallResult :=
  if !semanticSearchEnabled then
    ⟨false, some "Semantic search not available - embedding client not initialized".data,
      "retrieve_relevant_memories".data, query, [], 0, 0⟩
  else
    let queryEmbedding := embed query
    if !embeddingsDirExists then
      ⟨true, none, "retrieve_relevant_memories".data, query, [], 0, 0⟩
    else
      let results := embeddingFiles.foldl (fun acc file =>
        acc ++ file.2.filterMap fun r =>
          let s := cosSim queryEmbedding r.embedding
          if 1 / 10 < s then some ⟨r.text, s, file.1, r.item_id, r.memory_id, r.line_number⟩
          else none) []
      let top := (sortByScoreDesc results).take topK
      ⟨true, none, "retrieve_relevant_memories".data, query, top, top.length, results.length⟩

/-! ### Helper lemmas about the character-list primitives -/

theorem startsWithL_append (p t : Str) : startsWithL p (p ++ t) = true := by
  induction p with
  | nil => rfl
  | cons c cs ih => simp [startsWithL, ih]

theorem startsWithL_exists {p s : Str} (h : startsWithL p s = true) : ∃ t, s = p ++ t := by
  induction p generalizing s with
  | nil => exact ⟨s, rfl⟩
  | cons c cs ih =>
    cases s with
    | nil => simp [startsWithL] at h
    | cons a as =>
      simp only [startsWithL, Bool.and_eq_true, beq_iff_eq] at h
      obtain ⟨t, ht⟩ := ih h.2
      exact ⟨t, by simp [h.1, ht]⟩

theorem splitFirst_append (c : Char) (a b : Str) (h : c ∉ a) :
    splitFirst c (a ++ c :: b) = some (a, b) := by
  induction a with
  | nil => simp [splitFirst]
  | cons x xs ih =>
    have hx : ¬(x = c) := fun e => h (by simp [e])
    have h' : c ∉ xs := fun m => h (List.mem_cons_of_mem _ m)
    simp [splitFirst, hx, ih h']

theorem splitFirst_eq_some {c : Char} {l a b : Str} (h : splitFirst c l = some (a, b)) :
    l = a ++ c :: b ∧ c ∉ a := by
  induction l generalizing a b with
  | nil => simp [splitFirst] at h
  | cons x xs ih =>
    by_cases hx : x = c
    · subst hx
      have hs : splitFirst x (x :: xs) = some ([], xs) := by simp [splitFirst]
      rw [hs, Option.some_inj] at h
      have ha : a = [] := (congrArg Prod.fst h).symm
      have hb : b = xs := (congrArg Prod.snd h).symm
      subst ha; subst hb
      exact ⟨rfl, by simp⟩
    · simp only [splitFirst, if_neg hx] at h
      cases hs : splitFirst c xs with
      | none => rw [hs] at h; simp at h
      | some p =>
        rw [hs] at h
        simp only [Option.some_inj] at h
        obtain ⟨hl, hn⟩ := ih (a := p.1) (b := p.2) (by rw [hs])
        have ha : a = x :: p.1 := by
          have := congrArg Prod.fst h; simpa using this.symm
        have hb : b = p.2 := by
          have := congrArg Prod.snd h; simpa using this.symm
        subst ha; subst hb
        constructor
        · simp [hl]
        · intro m
          rcases List.mem_cons.mp m with e | m2
          · exact hx e.symm
          · exact hn m2

theorem takeWhile_all {p : Char → Bool} {l : Str} (h : ∀ x ∈ l, p x = true) :
    l.takeWhile p = l := by
  induction l with
  | nil => rfl
  | cons c cs ih =>
    simp [List.takeWhile_cons, h c (by simp), ih fun x hx => h x (by simp [hx])]

theorem takeWhile_append_all {p : Char → Bool} (a b : Str) (h : ∀ x ∈ a, p x = true) :
    (a ++ b).takeWhile p = a ++ b.takeWhile p := by
  induction a with
  | nil => rfl
  | cons c cs ih =>
    simp [List.takeWhile_cons, h c (by simp), ih fun x hx => h x (by simp [hx])]

theorem dropWhile_append_eq (p : Char → Bool) (a b : Str) :
    (a ++ b).dropWhile p = if a.dropWhile p = [] then b.dropWhile p else a.dropWhile p ++ b := by
  induction a with
  | nil => simp
  | cons c cs ih =>
    by_cases hc : p c
    · simp [List.dropWhile_cons, hc, ih]
    · simp [List.dropWhile_cons, hc]

theorem pyStrip_cons_ws {c : Char} (l : Str) (h : isWs c = true) :
    pyStrip (c :: l) = pyStrip l := by
  simp [pyStrip, List.dropWhile_cons, h]

theorem pyStrip_append_ws (l : Str) {c : Char} (h : isWs c = true) :
    pyStrip (l ++ [c]) = pyStrip l := by
  unfold pyStrip
  rw [dropWhile_append_eq]
  by_cases hd : l.dropWhile isWs = []
  · simp [hd, List.dropWhile_cons, h]
  · rw [if_neg hd, List.reverse_append]
    simp [List.dropWhile_cons, h]

theorem pyStrip_wrap (m : Str) : pyStrip ('[' :: m ++ [']']) = '[' :: m ++ [']'] := by
  have hob : isWs '[' = false := by decide
  have hcb : isWs ']' = false := by decide
  unfold pyStrip
  have h1 : List.dropWhile isWs ('[' :: m ++ [']']) = '[' :: m ++ [']'] := by
    simp [List.dropWhile_cons, hob]
  rw [h1]
  have h2 : ('[' :: m ++ [']']).reverse = ']' :: (m.reverse ++ ['[']) := by simp
  rw [h2]
  simp [List.dropWhile_cons, hcb]

theorem afterLastClose_of_no_close {l : Str} (h : ']' ∉ l) : afterLastClose l = l := by
  unfold afterLastClose
  rw [takeWhile_all (l := l.reverse) fun x hx => by
    simp only [decide_eq_true_eq]
    exact fun e => h (by rw [← e]; exact List.mem_reverse.mp hx)]
  simp

theorem afterLastClose_split (a b : Str) (h : ']' ∉ b) :
    afterLastClose (a ++ ']' :: b) = b := by
  unfold afterLastClose
  rw [List.reverse_append, List.reverse_cons, List.append_assoc]
  rw [takeWhile_append_all (b.reverse) ([']'] ++ a.reverse) fun x hx => by
    simp only [decide_eq_true_eq]
    exact fun e => h (by rw [← e]; exact List.mem_reverse.mp hx)]
  simp [List.takeWhile_cons]

theorem exists_last_split {l : Str} (h : ']' ∈ l) :
    ∃ a b, l = a ++ ']' :: b ∧ ']' ∉ b := by
  induction l with
  | nil => simp at h
  | cons c cs ih =>
    by_cases hm : ']' ∈ cs
    · obtain ⟨a, b, hl, hb⟩ := ih hm
      exact ⟨c :: a, b, by simp [hl], hb⟩
    · have hc : c = ']' := by
        rcases List.mem_cons.mp h with e | m
        · exact e.symm
        · exact absurd m hm
      exact ⟨[], cs, by simp [hc], hm⟩

theorem drop_len_append (a b : Str) : (a ++ b).drop a.length = b := by
  induction a with
  | nil => rfl
  | cons c cs ih => simp [ih]

theorem pyStrip_pad (l : Str) (h : pyStrip l = l) : pyStrip (' ' :: l ++ [' ']) = l := by
  rw [show (' ' :: l ++ [' ']) = ' ' :: (l ++ [' ']) from rfl,
    pyStrip_cons_ws _ (by decide), pyStrip_append_ws _ (by decide), h]

theorem splitContentLinks_concat (X : Str) :
    splitContentLinks (X ++ [']']) =
      (match splitFirst '[' (afterLastClose X) with
       | some (c1, c2) => (pyStrip (X.take (X.length - (afterLastClose X).length) ++ c1), c2)
       | none => (pyStrip (X ++ [']']), [])) := by
  unfold splitContentLinks
  simp

/-- Key codec lemma: the regex tail of the decoder, applied to the tail of an
encoded line, recovers the content and links exactly, provided the content is
stripped and has no open bracket after its last close bracket, and the links
contain no close bracket. -/
theorem splitContentLinks_encode (content links : Str) (hc : pyStrip content = content)
    (hb : '[' ∉ afterLastClose content) (hl : ']' ∉ links) :
    splitContentLinks (' ' :: content ++ ' ' :: '[' :: links ++ [']']) = (content, links) := by
  have hr : (' ' :: content ++ ' ' :: '[' :: links ++ [']'])
      = (' ' :: content ++ ' ' :: '[' :: links) ++ [']'] := by simp
  rw [hr, splitContentLinks_concat]
  by_cases hmem : ']' ∈ content
  · obtain ⟨c1, c2, hcc, hc2⟩ := exists_last_split hmem
    have hb' : '[' ∉ c2 := by
      have : afterLastClose content = c2 := by rw [hcc]; exact afterLastClose_split c1 c2 hc2
      rw [this] at hb; exact hb
    have hX : (' ' :: content ++ ' ' :: '[' :: links)
        = (' ' :: c1) ++ ']' :: (c2 ++ ' ' :: '[' :: links) := by simp [hcc]
    have halc : afterLastClose (' ' :: content ++ ' ' :: '[' :: links)
        = c2 ++ ' ' :: '[' :: links := by
      rw [hX]
      refine afterLastClose_split _ _ ?_
      intro m
      rcases List.mem_append.mp m with m1 | m2
      · exact hc2 m1
      · rcases List.mem_cons.mp m2 with e | m3
        · exact absurd e (by decide)
        · rcases List.mem_cons.mp m3 with e | m4
          · exact absurd e (by decide)
          · exact hl m4
    have hsf : splitFirst '[' (c2 ++ ' ' :: '[' :: links) = some (c2 ++ [' '], links) := by
      rw [show (c2 ++ ' ' :: '[' :: links) = (c2 ++ [' ']) ++ '[' :: links from by simp]
      refine splitFirst_append _ _ _ ?_
      intro m
      rcases List.mem_append.mp m with m1 | m2
      · exact hb' m1
      · simp at m2
    have htk : (' ' :: content ++ ' ' :: '[' :: links).take
        ((' ' :: content ++ ' ' :: '[' :: links).length - (c2 ++ ' ' :: '[' :: links).length)
        = ' ' :: c1 ++ [']'] := by
      have hX2 : (' ' :: content ++ ' ' :: '[' :: links)
          = (' ' :: c1 ++ [']']) ++ (c2 ++ ' ' :: '[' :: links) := by simp [hcc]
      rw [hX2]
      have hlen : ((' ' :: c1 ++ [']']) ++ (c2 ++ ' ' :: '[' :: links)).length
          - (c2 ++ ' ' :: '[' :: links).length = (' ' :: c1 ++ [']']).length := by
        simp only [List.length_append, List.length_cons]
        omega
      rw [hlen]
      exact List.take_left _ _
    have hjoin : (' ' :: c1 ++ [']']) ++ (c2 ++ [' ']) = ' ' :: content ++ [' '] := by
      simp [hcc]
    rw [halc, hsf]
    simp only [htk, hjoin, pyStrip_pad _ hc]
  · have hbc : '[' ∉ content := by
      rw [afterLastClose_of_no_close hmem] at hb; exact hb
    have hnX : ']' ∉ (' ' :: content ++ ' ' :: '[' :: links) := by
      intro m
      rcases List.mem_cons.mp m with e | m1
      · exact absurd e (by decide)
      rcases List.mem_append.mp m1 with m2 | m3
      · exact hmem m2
      rcases List.mem_cons.mp m3 with e | m4
      · exact absurd e (by decide)
      rcases List.mem_cons.mp m4 with e | m5
      · exact absurd e (by decide)
      · exact hl m5
    rw [afterLastClose_of_no_close hnX]
    have hsf : splitFirst '[' (' ' :: content ++ ' ' :: '[' :: links)
        = some (' ' :: content ++ [' '], links) := by
      rw [show (' ' :: content ++ ' ' :: '[' :: links)
          = (' ' :: content ++ [' ']) ++ '[' :: links from by simp]
      refine splitFirst_append _ _ _ ?_
      intro m
      rcases List.mem_cons.mp m with e | m1
      · exact absurd e (by decide)
      rcases List.mem_append.mp m1 with m2 | m3
      · exact hbc m2
      · simp at m3
    rw [hsf]
    simp only [Nat.sub_self, List.take_zero, List.nil_append, pyStrip_pad _ hc]

/-- A memory item all of whose fields are well formed for the line codec:
non-empty id and date free of close brackets and newlines, non-empty
stripped single-line content in which every open bracket is closed again,
and links free of close brackets and newlines. -/
def ValidItem (i : MemoryItem) : Prop :=
  i.memory_id ≠ [] ∧ ']' ∉ i.memory_id ∧ '\n' ∉ i.memory_id ∧
  i.mentioned_at ≠ [] ∧ ']' ∉ i.mentioned_at ∧ '\n' ∉ i.mentioned_at ∧
  i.content ≠ [] ∧ pyStrip i.content = i.content ∧ '\n' ∉ i.content ∧
  '[' ∉ afterLastClose i.content ∧
  ']' ∉ i.links ∧ '\n' ∉ i.links

instance (i : MemoryItem) : Decidable (ValidItem i) := by
  unfold ValidItem; infer_instance

/-- A line whose stripped form matches the leading structure of the decoder
regex ^\[([^\]]+)\]\[mentioned at ([^\]]+)\] (the spec's pattern
[X][mentioned at Y] with non-empty bracket-free groups). -/
def HasTimestampShape (line : Str) : Prop :=
  ∃ mid mat rest, mid ≠ [] ∧ mat ≠ [] ∧ ']' ∉ mid ∧ ']' ∉ mat ∧
    pyStrip line = '[' :: mid ++ ']' :: mentionedLit ++ mat ++ ']' :: rest

theorem formatMemoryItemLine_shape (i : MemoryItem) :
    formatMemoryItemLine i
      = '[' :: ((i.memory_id ++ ']' :: (mentionedLit
          ++ (i.mentioned_at ++ ']' :: (' ' :: i.content ++ ' ' :: '[' :: i.links)))) ++ [']']) := by
  have l1 : "[".data = ['['] := rfl
  have l2 : "][mentioned at ".data = ']' :: mentionedLit := rfl
  have l3 : "] ".data = [']', ' '] := rfl
  have l4 : " [".data = [' ', '['] := rfl
  have l5 : "]".data = [']'] := rfl
  simp [formatMemoryItemLine, mentionedLit, l1, l2, l3, l4, l5]

/-- Round trip of the line codec for well-formed items: decoding an encoded
line recovers all four fields exactly. -/
theorem codec_decode_encode (i : MemoryItem) (h : ValidItem i) :
    extractTimestampedMemoryItem (formatMemoryItemLine i)
      = (i.memory_id, i.mentioned_at, i.content, i.links) := by
  obtain ⟨h1, h2, _, h4, h5, _, _, h8, _, h10, h11, _⟩ := h
  have hps : pyStrip (formatMemoryItemLine i)
      = '[' :: ((i.memory_id ++ ']' :: (mentionedLit
          ++ (i.mentioned_at ++ ']' :: (' ' :: i.content ++ ' ' :: '[' :: i.links)))) ++ [']']) := by
    rw [formatMemoryItemLine_shape]; exact pyStrip_wrap _
  have hsp1 : splitFirst ']' ((i.memory_id ++ ']' :: (mentionedLit
        ++ (i.mentioned_at ++ ']' :: (' ' :: i.content ++ ' ' :: '[' :: i.links)))) ++ [']'])
      = some (i.memory_id, (mentionedLit
          ++ (i.mentioned_at ++ ']' :: (' ' :: i.content ++ ' ' :: '[' :: i.links))) ++ [']']) := by
    rw [show (i.memory_id ++ ']' :: (mentionedLit
        ++ (i.mentioned_at ++ ']' :: (' ' :: i.content ++ ' ' :: '[' :: i.links)))) ++ [']']
        = i.memory_id ++ ']' :: ((mentionedLit
          ++ (i.mentioned_at ++ ']' :: (' ' :: i.content ++ ' ' :: '[' :: i.links))) ++ [']'])
      from by simp]
    exact splitFirst_append _ _ _ h2
  have hsw : startsWithL mentionedLit ((mentionedLit
      ++ (i.mentioned_at ++ ']' :: (' ' :: i.content ++ ' ' :: '[' :: i.links))) ++ [']']) = true := by
    rw [List.append_assoc]; exact startsWithL_append _ _
  have hdp : ((mentionedLit ++ (i.mentioned_at ++ ']' :: (' ' :: i.content ++ ' ' :: '[' :: i.links)))
        ++ [']']).drop mentionedLit.length
      = (i.mentioned_at ++ ']' :: (' ' :: i.content ++ ' ' :: '[' :: i.links)) ++ [']'] := by
    rw [List.append_assoc]; exact drop_len_append _ _
  have hsp2 : splitFirst ']' ((i.mentioned_at ++ ']' :: (' ' :: i.content ++ ' ' :: '[' :: i.links))
        ++ [']'])
      = some (i.mentioned_at, (' ' :: i.content ++ ' ' :: '[' :: i.links) ++ [']']) := by
    rw [show (i.mentioned_at ++ ']' :: (' ' :: i.content ++ ' ' :: '[' :: i.links)) ++ [']']
        = i.mentioned_at ++ ']' :: ((' ' :: i.content ++ ' ' :: '[' :: i.links) ++ [']'])
      from by simp]
    exact splitFirst_append _ _ _ h5
  have hscl : splitContentLinks ((' ' :: i.content ++ ' ' :: '[' :: i.links) ++ [']'])
      = (i.content, i.links) := by
    rw [show (' ' :: i.content ++ ' ' :: '[' :: i.links) ++ [']']
        = ' ' :: i.content ++ ' ' :: '[' :: i.links ++ [']'] from by simp]
    exact splitContentLinks_encode _ _ h8 h10 h11
  simp only [extractTimestampedMemoryItem, hps, hsp1, hsw, hdp, hsp2, hscl, if_true, h1, h4,
    if_neg h1, if_neg h4, if_pos rfl, ite_true, ite_false]

/-- Soundness of the decoder: whenever it yields a non-null result, the line
matched the timestamped pattern; contrapositively, every line without the
[id][mentioned at date] structure decodes to the null (all-empty) result. -/
theorem extract_shape_sound {line : Str}
    (h : extractTimestampedMemoryItem line ≠ ([], [], [], [])) : HasTimestampShape line := by
  cases hs : pyStrip line with
  | nil => exact absurd (by simp [extractTimestampedMemoryItem, hs]) h
  | cons c rest =>
    by_cases hc : c = '['
    · subst hc
      cases hsp : splitFirst ']' rest with
      | none => exact absurd (by simp [extractTimestampedMemoryItem, hs, hsp]) h
      | some p =>
        obtain ⟨pid, prest⟩ := p
        by_cases hid : pid = []
        · exact absurd (by simp [extractTimestampedMemoryItem, hs, hsp, hid]) h
        · by_cases hsw : startsWithL mentionedLit prest = true
          · cases hsp2 : splitFirst ']' (prest.drop mentionedLit.length) with
            | none =>
              exact absurd (by simp [extractTimestampedMemoryItem, hs, hsp, hid, hsw, hsp2]) h
            | some q =>
              obtain ⟨dC, rest3⟩ := q
              by_cases hd : dC = []
              · exact absurd
                  (by simp [extractTimestampedMemoryItem, hs, hsp, hid, hsw, hsp2, hd]) h
              · obtain ⟨hrest_eq, hnid⟩ := splitFirst_eq_some hsp
                obtain ⟨t, ht⟩ := startsWithL_exists hsw
                obtain ⟨hdrop_eq, hnd⟩ := splitFirst_eq_some hsp2
                refine ⟨pid, dC, rest3, hid, hd, hnid, hnd, ?_⟩
                have hteq : t = dC ++ ']' :: rest3 := by
                  rw [ht, drop_len_append] at hdrop_eq; exact hdrop_eq
                rw [hs, hrest_eq, ht, hteq]
                simp
          · exact absurd (by simp [extractTimestampedMemoryItem, hs, hsp, hid, hsw]) h
    · exact absurd (by simp [extractTimestampedMemoryItem, hs, hc]) h

/-! ### Claim theorems for the line codec -/

/-- Claim C2, counterexample: the item with id "a", date "2024-01-01",
content "x [y" and links "l" has non-empty content and well-formed id, date
and links fields, yet decoding its encoded line does not reproduce it: the
decoder returns content "x" and links "y [l", because the unmatched open
bracket inside the content captures the optional links group.  This refutes
the claim as stated (whose validity premise constrains only the id, date and
links fields and requires merely non-empty content). -/
theorem c2_codec_round_trip_cex :
    ("x [y".data : Str) ≠ [] ∧
    ("a".data : Str) ≠ [] ∧ ']' ∉ ("a".data : Str) ∧ '\n' ∉ ("a".data : Str) ∧
    ("2024-01-01".data : Str) ≠ [] ∧ ']' ∉ ("2024-01-01".data : Str) ∧
    ']' ∉ ("l".data : Str) ∧
    extractTimestampedMemoryItem
        (formatMemoryItemLine ⟨"a".data, "2024-01-01".data, "x [y".data, "l".data⟩)
      = ("a".data, "2024-01-01".data, "x".data, "y [l".data) ∧
    ("x".data : Str) ≠ "x [y".data := by decide

/-- Claim C2, amended: for every memory item whose id and date are non-empty
and free of close brackets and newlines, whose content is non-empty,
stripped, single-line, and closes every open bracket it contains, and whose
links are free of close brackets and newlines, decoding the encoded line
reproduces the item exactly; and the decoder yields a non-null result only
on lines matching the [id][mentioned at date] pattern — every malformed
line decodes to the null (all-empty) result, and the decoder is a total
function that never raises. -/
theorem c2_codec_round_trip :
    (∀ i : MemoryItem, ValidItem i →
      extractTimestampedMemoryItem (formatMemoryItemLine i)
        = (i.memory_id, i.mentioned_at, i.content, i.links)) ∧
    (∀ line : Str, extractTimestampedMemoryItem line ≠ ([], [], [], []) →
      HasTimestampShape line) :=
  ⟨fun i h => codec_decode_encode i h, fun _ h => extract_shape_sound h⟩

/-- Witness for C2 at concrete inputs: a well-formed item round-trips, and a
line on which the decoder returns a non-null result has the timestamp shape. -/
theorem c2_codec_round_trip_witness :
    extractTimestampedMemoryItem
        (formatMemoryItemLine ⟨"a1".data, "2024-01-01".data, "Alice likes tea".data, "b2,c3".data⟩)
      = ("a1".data, "2024-01-01".data, "Alice likes tea".data, "b2,c3".data) ∧
    HasTimestampShape "[z9][mentioned at 2024-02-02] Bob naps".data :=
  ⟨c2_codec_round_trip.1 _ (by decide), c2_codec_round_trip.2 _ (by decide)⟩

/-- Claim C3 (code bug): the legacy two-field line "[abc123] Alice likes tea"
is recognized by the legacy helpers _has_memory_id / _extract_memory_id, yet
the loaders _parse_memory_items and _extract_memory_items_from_content —
whose docstrings say they support both the old and the new timestamp
formats — discard it: the timestamped decoder returns the null result and no
item is produced. -/
theorem c3_legacy_line_discarded :
    parseMemoryItems "[abc123] Alice likes tea".data = [] ∧
    extractTimestampedMemoryItem "[abc123] Alice likes tea".data = ([], [], [], []) ∧
    extractMemoryItemsFromContent "[abc123] Alice likes tea".data = [] ∧
    hasMemoryId "[abc123] Alice likes tea".data = true ∧
    extractMemoryId "[abc123] Alice likes tea".data
      = ("abc123".data, "Alice likes tea".data) := by decide

/-! ### Claim theorems for the theory-of-mind operation -/

/-- Claim C1, counterexample: a response with a non-empty reasoning section
and an empty INFERENCE ITEMS section parses (the reasoning text is
recovered) and yields zero inference items, and execute — called with
non-empty conversation text and a non-empty activity-items list — returns
success = false with the zero-items error, not a success with zero items. -/
theorem c1_empty_inference_success_cex :
    (parseTheoryOfMindFromText
        (pyStrip "**REASONING PROCESS:**\nNothing implicit found.\n**INFERENCE ITEMS:**".data)
        "2024-01-15".data (fun _ => "id0".data)).2 = [] ∧
    (parseTheoryOfMindFromText
        (pyStrip "**REASONING PROCESS:**\nNothing implicit found.\n**INFERENCE ITEMS:**".data)
        "2024-01-15".data (fun _ => "id0".data)).1 = "Nothing implicit found.".data ∧
    runTheoryOfMind "USER: I had lunch.".data [("m1".data, "Alice had lunch.".data)]
        "2024-01-15".data (fun _ => "id0".data)
        "**REASONING PROCESS:**\nNothing implicit found.\n**INFERENCE ITEMS:**".data
      = ⟨false, some "No theory of mind items could be extracted from conversation".data,
          [], []⟩ := by decide

/-- Claim C1, amended: for every non-empty conversation text, non-empty
activity-items list, and non-empty model response whose parse yields zero
inference items (in particular a response whose INFERENCE ITEMS section is
empty), execute returns a failure result with success false and the error
"No theory of mind items could be extracted from conversation" — not a
success with zero items. -/
theorem c1_empty_inference_failure (conv : Str) (items : List (Str × Str)) (date : Str)
    (fresh : Nat → Str) (resp : Str) (h1 : pyStrip conv ≠ []) (h2 : items ≠ [])
    (h3 : pyStrip resp ≠ [])
    (h4 : (parseTheoryOfMindFromText (pyStrip resp) date fresh).2 = []) :
    runTheoryOfMind conv items date fresh resp
      = ⟨false, some "No theory of mind items could be extracted from conversation".data,
          [], []⟩ := by
  simp only [runTheoryOfMind, if_neg h1, if_neg h2, if_neg h3, h4, if_pos rfl, if_true]

/-- Witness for C1 at concrete inputs. -/
theorem c1_empty_inference_failure_witness :
    runTheoryOfMind "USER: We watched a film.".data [("m2".data, "Bob watched a film.".data)]
        "2024-03-01".data (fun _ => "id1".data)
        "**REASONING PROCESS:**\nNo hidden content.\n**INFERENCE ITEMS:**\n".data
      = ⟨false, some "No theory of mind items could be extracted from conversation".data,
          [], []⟩ :=
  c1_empty_inference_failure _ _ _ _ _ (by decide) (by decide) (by decide) (by decide)

/-! ### Claim theorems for the reconciling-update engine -/

theorem truthy_some {l : Str} (h : l ≠ []) : truthy (some l) = true := by
  cases l with
  | nil => exact absurd rfl h
  | cons c t => rfl

theorem pyDeleteLoop_no_match (store : List MemoryItem) (tid : Str) (l : List Nat)
    (h : ∀ j ∈ l, (getRef store j).memory_id ≠ tid) :
    ∀ fuel i, pyDeleteLoop store tid fuel l i = l := by
  intro fuel
  induction fuel with
  | zero => intro i; rfl
  | succ n ih =>
    intro i
    unfold pyDeleteLoop
    by_cases hi : i < l.length
    · have hne : ¬((getRef store l[i]).memory_id = tid) := h _ (l.get_mem i hi)
      simp [hi, hne, ih]
    · simp [hi]

/-- Claim C4: applying [UPDATE(A, "x"), DELETE(B), ADD("y")] to a working
copy holding exactly A and B (with distinct non-empty ids) leaves exactly
two items — A with its content replaced by "x", then a new item with a
fresh id and content "y" — in that order; exactly A and the new item have
their embeddings regenerated; and all three operations are audited. -/
theorem c4_reconciling_update (A B : MemoryItem) (fresh : Nat → Str) (date : Str)
    (hA : A.memory_id ≠ []) (hB : B.memory_id ≠ []) (hAB : A.memory_id ≠ B.memory_id) :
    materialize (execOperations fresh date [A, B]
        [⟨"UPDATE".data, some A.memory_id, some "x".data⟩,
         ⟨"DELETE".data, some B.memory_id, none⟩,
         ⟨"ADD".data, none, some "y".data⟩])
      (execOperations fresh date [A, B]
        [⟨"UPDATE".data, some A.memory_id, some "x".data⟩,
         ⟨"DELETE".data, some B.memory_id, none⟩,
         ⟨"ADD".data, none, some "y".data⟩]).allItems
      = [{ A with content := "x".data }, ⟨fresh 0, date, "y".data, []⟩] ∧
    embeddedMemoryIds (execOperations fresh date [A, B]
        [⟨"UPDATE".data, some A.memory_id, some "x".data⟩,
         ⟨"DELETE".data, some B.memory_id, none⟩,
         ⟨"ADD".data, none, some "y".data⟩])
      = [A.memory_id, fresh 0] ∧
    (execOperations fresh date [A, B]
        [⟨"UPDATE".data, some A.memory_id, some "x".data⟩,
         ⟨"DELETE".data, some B.memory_id, none⟩,
         ⟨"ADD".data, none, some "y".data⟩]).opsExecuted
      = [⟨"UPDATE".data, some A.memory_id, some "x".data⟩,
         ⟨"DELETE".data, some B.memory_id, none⟩,
         ⟨"ADD".data, none, some "y".data⟩] := by
  obtain ⟨aid, adate, acont, alinks⟩ := A
  obtain ⟨bid, bdate, bcont, blinks⟩ := B
  simp only [MemoryItem.memory_id] at hA hB hAB
  have ht1 : truthy (some ['x']) = true := rfl
  have ht2 : truthy (some ['y']) = true := rfl
  have ht3 : truthy none = false := rfl
  have hst : execOperations fresh date
      [⟨aid, adate, acont, alinks⟩, ⟨bid, bdate, bcont, blinks⟩]
      [⟨"UPDATE".data, some aid, some "x".data⟩,
       ⟨"DELETE".data, some bid, none⟩,
       ⟨"ADD".data, none, some "y".data⟩]
      = ⟨[⟨aid, adate, ['x'], alinks⟩, ⟨bid, bdate, bcont, blinks⟩, ⟨fresh 0, date, ['y'], []⟩],
          [0, 2], [2], [0, 2],
          [⟨"UPDATE".data, some aid, some "x".data⟩, ⟨"DELETE".data, some bid, none⟩,
           ⟨"ADD".data, none, some "y".data⟩], 1⟩ := by
    simp [execOperations, execOp, initState, findUpdateIdx, getRef, pyDeleteLoop,
      eraseFirstByVal, setContent, List.find?, truthy_some hA, truthy_some hB, hAB,
      ht1, ht2, ht3]
  rw [hst]
  refine ⟨?_, ?_, rfl⟩
  · simp [materialize, getRef]
  · simp [embeddedMemoryIds, embeddedItems, materialize, getRef,
      show (!(pyStrip ['x']).isEmpty) = true from rfl,
      show (!(pyStrip ['y']).isEmpty) = true from rfl]

/-- Witness for C4 at concrete items. -/
theorem c4_reconciling_update_witness :
    materialize (execOperations (fun n => ("f".data ++ [Char.ofNat (48 + n)])) "2024-02-02".data
        [⟨"a1".data, "2024-01-01".data, "Alice lives in SF".data, []⟩,
         ⟨"b2".data, "2024-01-02".data, "Bob hikes".data, []⟩]
        [⟨"UPDATE".data, some "a1".data, some "x".data⟩,
         ⟨"DELETE".data, some "b2".data, none⟩,
         ⟨"ADD".data, none, some "y".data⟩])
      (execOperations (fun n => ("f".data ++ [Char.ofNat (48 + n)])) "2024-02-02".data
        [⟨"a1".data, "2024-01-01".data, "Alice lives in SF".data, []⟩,
         ⟨"b2".data, "2024-01-02".data, "Bob hikes".data, []⟩]
        [⟨"UPDATE".data, some "a1".data, some "x".data⟩,
         ⟨"DELETE".data, some "b2".data, none⟩,
         ⟨"ADD".data, none, some "y".data⟩]).allItems
      = [⟨"a1".data, "2024-01-01".data, "x".data, []⟩,
         ⟨"f0".data, "2024-02-02".data, "y".data, []⟩] ∧
    embeddedMemoryIds (execOperations (fun n => ("f".data ++ [Char.ofNat (48 + n)])) "2024-02-02".data
        [⟨"a1".data, "2024-01-01".data, "Alice lives in SF".data, []⟩,
         ⟨"b2".data, "2024-01-02".data, "Bob hikes".data, []⟩]
        [⟨"UPDATE".data, some "a1".data, some "x".data⟩,
         ⟨"DELETE".data, some "b2".data, none⟩,
         ⟨"ADD".data, none, some "y".data⟩])
      = ["a1".data, "f0".data] := by
  have h := c4_reconciling_update
    ⟨"a1".data, "2024-01-01".data, "Alice lives in SF".data, []⟩
    ⟨"b2".data, "2024-01-02".data, "Bob hikes".data, []⟩
    (fun n => ("f".data ++ [Char.ofNat (48 + n)])) "2024-02-02".data
    (by decide) (by decide) (by decide)
  exact ⟨by rw [h.1]; decide, by rw [h.2.1]; decide⟩

/-- Claim C5: an UPDATE, DELETE, or TOUCH operation carrying a (non-empty)
target id that matches no item in the working copy leaves the entire working
state unchanged except that the operation is still appended to the
operation_executed audit list; and whenever the category is valid and the
model's operation response is non-empty and parses, the overall update
result reports success. -/
theorem c5_nonexistent_target_skipped :
    (∀ (st : ExecState) (o : Str) (t m : Option Str) (fresh : Nat → Str) (date : Str),
      (o = "UPDATE".data ∨ o = "DELETE".data ∨ o = "TOUCH".data) →
      truthy t = true →
      (o = "UPDATE".data → truthy m = true) →
      (∀ j ∈ st.allItems, (getRef st.store j).memory_id ≠ t.getD []) →
      execOp fresh date st ⟨o, t, m⟩
        = { st with opsExecuted := st.opsExecuted ++ [⟨o, t, m⟩] }) ∧
    (∀ (existingContent date : Str) (fresh : Nat → Str) (resp : Str) (ops : List MemoryOp),
      pyStrip resp ≠ [] → parseOperationResponse resp = some ops →
      (updateMemoryWithSuggestions true existingContent date fresh resp).success = true) := by
  constructor
  · intro st o t m fresh date hop ht hm hnone
    rcases hop with rfl | rfl | rfl
    · have hfind : findUpdateIdx st.store (t.getD []) st.allItems = none := by
        rw [findUpdateIdx, List.find?_eq_none]
        intro j hj hbeq
        exact hnone j hj (eq_of_beq hbeq)
      simp [execOp, hfind, ht, hm rfl,
        (by decide : ¬(("UPDATE".data : Str) = "ADD".data))]
    · have hdel := pyDeleteLoop_no_match st.store (t.getD []) st.allItems hnone
        st.allItems.length 0
      simp [execOp, ht, hdel,
        (by decide : ¬(("DELETE".data : Str) = "ADD".data)),
        (by decide : ¬(("DELETE".data : Str) = "UPDATE".data))]
    · simp [execOp, ht,
        (by decide : ¬(("TOUCH".data : Str) = "ADD".data)),
        (by decide : ¬(("TOUCH".data : Str) = "UPDATE".data)),
        (by decide : ¬(("TOUCH".data : Str) = "DELETE".data))]
  · intro existingContent date fresh resp ops hne hp
    simp [updateMemoryWithSuggestions, hne, hp]

/-- Witness for C5 at concrete inputs: a DELETE of the nonexistent id "zzz"
on a one-item working copy changes nothing but is still audited, and a
TOUCH of a nonexistent id still yields an overall success result. -/
theorem c5_nonexistent_target_skipped_witness :
    execOp (fun _ => "f0".data) "2024-01-01".data
        ⟨[⟨"a1".data, "2024-01-01".data, "Alice lives in SF".data, []⟩], [0], [], [], [], 0⟩
        ⟨"DELETE".data, some "zzz".data, none⟩
      = ⟨[⟨"a1".data, "2024-01-01".data, "Alice lives in SF".data, []⟩], [0], [], [],
          [⟨"DELETE".data, some "zzz".data, none⟩], 0⟩ ∧
    (updateMemoryWithSuggestions true
        "[a1][mentioned at 2024-01-01] Alice lives in SF []".data "2024-02-02".data
        (fun _ => "f0".data) "**OPERATION:** TOUCH\n- Target Memory ID: zzz".data).success
      = true := by
  constructor
  · exact c5_nonexistent_target_skipped.1 _ _ _ _ _ _ (Or.inr (Or.inl rfl)) (by decide)
      (fun h => absurd h (by decide)) (by decide)
  · exact c5_nonexistent_target_skipped.2 _ _ _ _
      [⟨"TOUCH".data, some "zzz".data, none⟩] (by decide) (by decide)

/-! ### Claim theorems for the link writeback -/

theorem mem_of_mem_pySplitChar {c : Char} {content l : Str} {x : Char}
    (hl : l ∈ pySplitChar c content) (hx : x ∈ l) : x ∈ content := by
  induction content generalizing l with
  | nil =>
    simp [pySplitChar] at hl
    subst hl; simp at hx
  | cons y ys ih =>
    by_cases hy : y = c
    · simp only [pySplitChar, if_pos hy] at hl
      rcases List.mem_cons.mp hl with rfl | hl2
      · simp at hx
      · exact List.mem_cons_of_mem _ (ih hl2 hx)
    · cases hr : pySplitChar c ys with
      | nil =>
        simp only [pySplitChar, if_neg hy, hr] at hl
        rcases List.mem_singleton.mp hl with rfl
        have := List.mem_singleton.mp hx
        subst this
        exact List.mem_cons_self _ _
      | cons hh ht =>
        simp only [pySplitChar, if_neg hy, hr] at hl
        rcases List.mem_cons.mp hl with rfl | hl2
        · rcases List.mem_cons.mp hx with rfl | hx2
          · exact List.mem_cons_self _ _
          · exact List.mem_cons_of_mem _
              (ih (l := hh) (by rw [hr]; exact List.mem_cons_self _ _) hx2)
        · exact List.mem_cons_of_mem _
            (ih (by rw [hr]; exact List.mem_cons_of_mem _ hl2) hx)

theorem pySplitChar_ne_nil (c : Char) (content : Str) : pySplitChar c content ≠ [] := by
  induction content with
  | nil => simp [pySplitChar]
  | cons y ys ih =>
    by_cases hy : y = c
    · simp [pySplitChar, hy]
    · cases hr : pySplitChar c ys with
      | nil => simp [pySplitChar, hy, hr]
      | cons hh ht => simp [pySplitChar, hy, hr]

theorem all_ws_of_pyStrip_nil {l : Str} (h : pyStrip l = []) : ∀ x ∈ l, isWs x = true := by
  unfold pyStrip at h
  have h1 : (l.dropWhile isWs).reverse.dropWhile isWs = [] := by
    have := congrArg List.reverse h; simpa using this
  have h2 : ∀ x ∈ (l.dropWhile isWs).reverse, isWs x = true :=
    List.dropWhile_eq_nil_iff.mp h1
  intro x hx
  rw [← List.takeWhile_append_dropWhile (p := isWs) (l := l)] at hx
  rcases List.mem_append.mp hx with h3 | h4
  · exact List.mem_takeWhile_imp h3
  · exact h2 x (List.mem_reverse.mpr h4)

theorem dropWhile_length_le (p : Char → Bool) (l : Str) :
    (l.dropWhile p).length ≤ l.length := by
  induction l with
  | nil => simp
  | cons c t ih =>
    by_cases h : p c = true
    · simp only [List.dropWhile_cons, h, if_true, List.length_cons]
      omega
    · simp [List.dropWhile_cons, h]

theorem pyStrip_length_le (l : Str) : (pyStrip l).length ≤ l.length := by
  unfold pyStrip
  have a1 := dropWhile_length_le isWs l
  have a2 := dropWhile_length_le isWs (l.dropWhile isWs).reverse
  simp only [List.length_reverse] at a2 ⊢
  omega

theorem head_not_ws {l : Str} (hs : pyStrip l = l) (hn : l ≠ []) :
    ∃ c t, l = c :: t ∧ isWs c = false := by
  cases l with
  | nil => exact absurd rfl hn
  | cons c t =>
    refine ⟨c, t, rfl, ?_⟩
    cases hw : isWs c with
    | false => rfl
    | true =>
      have hstep := pyStrip_cons_ws t hw
      have he : c :: t = pyStrip t := by rw [← hstep, hs]
      have hle : (c :: t).length ≤ t.length := he ▸ pyStrip_length_le t
      simp at hle

theorem pyStrip_content_ne_nil (content : Str)
    (h : ∀ l ∈ pySplitChar '\n' content, pyStrip l = l ∧ l ≠ []) : pyStrip content ≠ [] := by
  cases hr : pySplitChar '\n' content with
  | nil => exact absurd hr (pySplitChar_ne_nil _ _)
  | cons l0 rest =>
    have hl0 := h l0 (by rw [hr]; exact List.mem_cons_self _ _)
    obtain ⟨c, t, hl0eq, hcw⟩ := head_not_ws hl0.1 hl0.2
    have hcmem : c ∈ content :=
      mem_of_mem_pySplitChar (by rw [hr]; exact List.mem_cons_self _ _)
        (by rw [hl0eq]; exact List.mem_cons_self _ _)
    intro hnil
    have := all_ws_of_pyStrip_nil hnil c hcmem
    rw [hcw] at this
    exact Bool.false_ne_true this

theorem parseMemoryItemsLines_rewrite (memoryId : Str) (related : List Str) :
    ∀ (lines : List Str) (n : Nat),
      (∀ l ∈ lines, pyStrip l = l ∧ l ≠ [] ∧ (extractTimestampedMemoryItem l).2.2.1 ≠ []) →
      (parseMemoryItemsLines n lines).map (fun it =>
          if it.memory_id = memoryId then
            "[".data ++ it.memory_id ++ "][mentioned at ".data ++ it.mentioned_at ++ "] ".data
              ++ it.content ++ " [".data ++ interList ",".data related ++ "]".data
          else it.full_line)
        = lines.map (rewriteTargetLine memoryId related) := by
  intro lines
  induction lines with
  | nil => intro n h; rfl
  | cons l ls ih =>
    intro n h
    obtain ⟨hs, hn, hc⟩ := h l (List.mem_cons_self _ _)
    have hrec := ih (n + 1) fun x hx => h x (List.mem_cons_of_mem _ hx)
    simp only [parseMemoryItemsLines, hs, if_neg hn, if_neg hc, List.map_cons, hrec,
      rewriteTargetLine]

/-- Claim C6, counterexample: writing the link "b2" back for item "a1" in a
category file whose second line does not parse in the timestamped format
rewrites the file to the single target line — the unparseable line is
dropped, not preserved. -/
theorem c6_link_writeback_cex :
    appendLinksToMemoryContent
        "[a1][mentioned at 2024-01-01] Alice likes tea []\nsome malformed line".data
        "a1".data ["b2".data]
      = "[a1][mentioned at 2024-01-01] Alice likes tea [b2]".data ∧
    "some malformed line".data ∈ pySplitChar '\n'
        "[a1][mentioned at 2024-01-01] Alice likes tea []\nsome malformed line".data ∧
    "some malformed line".data ∉ pySplitChar '\n'
        (appendLinksToMemoryContent
          "[a1][mentioned at 2024-01-01] Alice likes tea []\nsome malformed line".data
          "a1".data ["b2".data]) := by decide

/-- Claim C6, amended: when every line of the category file is stripped and
parses in the timestamped format with non-empty content, the link writeback
maps the file line by line — the target item's line is rewritten with the
new link ids, and every other line is preserved verbatim; but lines that do
not parse (and blank lines) are dropped from the rewritten file rather than
preserved. -/
theorem c6_link_writeback_line_map (content : Str) (memoryId : Str) (related : List Str)
    (h : ∀ l ∈ pySplitChar '\n' content, pyStrip l = l ∧ l ≠ [] ∧
      (extractTimestampedMemoryItem l).2.2.1 ≠ []) :
    appendLinksToMemoryContent content memoryId related
      = interList "\n".data
          ((pySplitChar '\n' content).map (rewriteTargetLine memoryId related)) := by
  unfold appendLinksToMemoryContent parseMemoryItems
  rw [if_neg (pyStrip_content_ne_nil content fun l hl => ⟨(h l hl).1, (h l hl).2.1⟩)]
  rw [parseMemoryItemsLines_rewrite memoryId related _ 0 h]

/-- Witness for C6 at a concrete two-line category file. -/
theorem c6_link_writeback_line_map_witness :
    appendLinksToMemoryContent
        "[a1][mentioned at 2024-01-01] Alice likes tea []\n[b2][mentioned at 2024-01-02] Bob hikes []".data
        "a1".data ["b2".data]
      = interList "\n".data
          ((pySplitChar '\n'
              "[a1][mentioned at 2024-01-01] Alice likes tea []\n[b2][mentioned at 2024-01-02] Bob hikes []".data).map
            (rewriteTargetLine "a1".data ["b2".data])) :=
  c6_link_writeback_line_map _ _ _ (by decide)

/-! ### Claim theorems for the orchestrator loop -/

/-- Claim C7 (code bug): with the cooperative stop flag set from the very
start and a sequence of successful model responses that never emit the
completion sentinel, the conversation-processing loop still runs all 20
default iterations — more than the single in-flight iteration the
specification allows — because MemoryAgent.run never consults
memory_core._stop_flag. -/
theorem c7_stop_flag_ignored :
    memoryAgentRunIterations (fun _ => ⟨true, some "working".data, []⟩) (fun _ => true) 20
      = 20 ∧ (1 : Nat) < 20 := by
  constructor
  · decide
  · decide

theorem runIterCount_all (responses : Nat → ChatResponse) (stopFlag : Nat → Bool) :
    ∀ (fuel i : Nat),
      (∀ k, k < fuel → (responses (i + k)).success = true ∧
        responseComplete (responses (i + k)) = false) →
      runIterCount responses stopFlag fuel i = i + fuel := by
  intro fuel
  induction fuel with
  | zero => intro i h; rfl
  | succ n ih =>
    intro i h
    have h0 := h 0 (Nat.succ_pos n)
    simp only [Nat.add_zero] at h0
    have hrec := ih (i + 1) fun k hk => by
      have := h (k + 1) (by omega)
      rwa [show i + (k + 1) = i + 1 + k from by omega] at this
    simp only [runIterCount, h0.1, h0.2, Bool.not_true, Bool.false_eq_true, if_false, hrec]
    omega

/-- Claim C8: for any sequence of successful model responses none of which
contains the completion sentinel, the loop executes exactly max_iterations
iterations and the returned iteration count equals max_iterations. -/
theorem c8_orchestrator_bounded (responses : Nat → ChatResponse) (stopFlag : Nat → Bool)
    (maxIterations : Nat)
    (h : ∀ k, k < maxIterations → (responses k).success = true ∧
      responseComplete (responses k) = false) :
    memoryAgentRunIterations responses stopFlag maxIterations = maxIterations := by
  unfold memoryAgentRunIterations
  have := runIterCount_all responses stopFlag maxIterations 0 fun k hk => by
    simpa using h k hk
  simpa using this

/-- Witness for C8 with the default bound of 20 iterations. -/
theorem c8_orchestrator_bounded_witness :
    memoryAgentRunIterations (fun _ => ⟨true, some "calling add_activity_memory".data, []⟩)
        (fun _ => false) 20 = 20 :=
  c8_orchestrator_bounded _ _ 20 fun _ _ => ⟨rfl, by decide⟩

/-! ### Claim theorems for the cluster response parse -/

/-- Claim C9, counterexample: a line starting with "- " but containing no
": " separator makes the two-variable unpacking in both cluster sub-steps
raise ValueError — the parse is not total, refuting the claim that such
lines are ignored without effect. -/
theorem c9_cluster_parse_cex :
    clusterBulletLines "- hello".data
      = Except.error "ValueError: not enough values to unpack".data := rfl

theorem clusterBulletStep_skip {junk : Str} (hjunk : startsWithL "- ".data junk = false)
    (acc : List (Str × Str)) : clusterBulletStep acc junk = Except.ok acc := by
  unfold clusterBulletStep
  rw [hjunk]
  rfl

theorem clusterFold_junk {junk : Str} (hjunk : startsWithL "- ".data junk = false) :
    ∀ (pre : List Str) (post : List Str) (acc : List (Str × Str)),
      (pre ++ junk :: post).foldlM clusterBulletStep acc
        = (pre ++ post).foldlM clusterBulletStep acc := by
  intro pre
  induction pre with
  | nil =>
    intro post acc
    simp only [List.nil_append, List.foldlM_cons, clusterBulletStep_skip hjunk]
    rfl
  | cons p ps ih =>
    intro post acc
    simp only [List.cons_append, List.foldlM_cons]
    cases hsp : clusterBulletStep acc p with
    | error e => rfl
    | ok acc' => exact ih post acc'

theorem clusterFold_ok :
    ∀ (lines : List Str) (acc : List (Str × Str)),
      (∀ l ∈ lines, startsWithL "- ".data l = true →
        (splitOnceSub ": ".data (l.drop 2)).isSome = true) →
      ∃ r, lines.foldlM clusterBulletStep acc = Except.ok r := by
  intro lines
  induction lines with
  | nil => intro acc _; exact ⟨acc, rfl⟩
  | cons l ls ih =>
    intro acc h
    have hstep : ∃ acc', clusterBulletStep acc l = Except.ok acc' := by
      unfold clusterBulletStep
      cases hb : startsWithL "- ".data l with
      | false => exact ⟨acc, rfl⟩
      | true =>
        have hsome := h l (List.mem_cons_self _ _) hb
        cases hs2 : splitOnceSub ": ".data (l.drop 2) with
        | none => rw [hs2] at hsome; simp at hsome
        | some kv =>
          obtain ⟨k, v⟩ := kv
          exact ⟨acc ++ [(k, v)], rfl⟩
    obtain ⟨acc', hacc⟩ := hstep
    obtain ⟨r, hr⟩ := ih acc' fun x hx hbx => h x (List.mem_cons_of_mem _ hx) hbx
    refine ⟨r, ?_⟩
    simp only [List.foldlM_cons, hacc]
    exact hr

/-- Claim C9, amended: lines not starting with "- " are ignored without
effect (inserting such a line anywhere leaves the parse result unchanged),
and the parse succeeds whenever every "- " line contains a ": " separator;
but a line starting with "- " and containing no ": " raises ValueError, so
the parse is not total over arbitrary response text. -/
theorem c9_cluster_parse_amended :
    (∀ (pre post : List Str) (junk : Str), startsWithL "- ".data junk = false →
      clusterBulletLinesL (pre ++ junk :: post) = clusterBulletLinesL (pre ++ post)) ∧
    (∀ lines : List Str,
      (∀ l ∈ lines, startsWithL "- ".data l = true →
        (splitOnceSub ": ".data (l.drop 2)).isSome = true) →
      ∃ r, clusterBulletLinesL lines = Except.ok r) := by
  constructor
  · intro pre post junk hjunk
    unfold clusterBulletLinesL
    exact clusterFold_junk hjunk pre post []
  · intro lines h
    exact clusterFold_ok lines [] h

/-- Witness for C9 at concrete responses: a non-bullet header line is
ignored without effect, and a response whose bullet lines all carry the
": " separator parses successfully. -/
theorem c9_cluster_parse_amended_witness :
    clusterBulletLinesL (["- a1: hiking,summer".data] ++ "json tail".data :: [])
      = clusterBulletLinesL (["- a1: hiking,summer".data] ++ []) ∧
    ∃ r, clusterBulletLinesL ["header".data, "- a1: hiking,summer".data] = Except.ok r :=
  ⟨c9_cluster_parse_amended.1 ["- a1: hiking,summer".data] [] "json tail".data (by decide),
   c9_cluster_parse_amended.2 ["header".data, "- a1: hiking,summer".data] (by decide)⟩

/-! ### Claim theorem for top-k item retrieval with embeddings disabled -/

/-- Claim C10: when no embedding client could be initialized, the top-k item
retrieval mode returns, for every query and every state of the embedding
store, the structured failure result with success false and the explanatory
error — it performs no keyword fallback and never raises. -/
theorem c10_retrieve_relevant_memories_disabled (cosSim : List ℚ → List ℚ → ℚ)
    (embed : Str → List ℚ) (dirExists : Bool) (files : List (Str × List EmbRecord))
    (query : Str) (topK : Nat) :
    retrieveRelevantMemories false cosSim embed dirExists files query topK
      = ⟨false, some "Semantic search not available - embedding client not initialized".data,
          "retrieve_relevant_memories".data, query, [], 0, 0⟩ := rfl

end MemU
